import Mathlib

/-!
Verification development for the certigen certificate generator (src/app.py).

Python strings are modelled as lists of Unicode codepoints (`List Nat`),
which matches Python string semantics (a `str` is a sequence of code
points, compared lexicographically by code point).  Case mapping and the
whitespace predicate are modelled over the ASCII range; the Gujarati
codepoints used by the program are outside that range and are unaffected
by Python case mapping, as in the model.  Fallible library calls are
modelled with `Option`/`Except`.
-/

/-- Codepoints of a Lean string literal, used to write concrete Python strings. -/
def lit (s : String) : List Nat := s.data.map Char.toNat

/-- Python whitespace test, restricted to the ASCII whitespace characters
recognised by str.split / str.strip (space, tab, LF, CR, VT, FF). -/
def is_space (n : Nat) : Bool :=
  n == 32 || n == 9 || n == 10 || n == 13 || n == 11 || n == 12

/-- Python str.lower on one code point (ASCII range). -/
def py_lower_char (n : Nat) : Nat :=
  if 65 ≤ n ∧ n ≤ 90 then n + 32 else n

/-- Python str.upper on one code point (ASCII range); used by str.capitalize. -/
def py_upper_char (n : Nat) : Nat :=
  if 97 ≤ n ∧ n ≤ 122 then n - 32 else n

/-- Python str.strip(): drop leading and trailing whitespace. -/
def py_strip (s : List Nat) : List Nat :=
  ((s.dropWhile is_space).reverse.dropWhile is_space).reverse

/-- Worker for Python str.split() with no separator: split on runs of
whitespace, dropping empty fields.  `acc` holds the current word reversed. -/
def splitWsAux : List Nat → List Nat → List (List Nat)
  | [], acc => if acc = [] then [] else [acc.reverse]
  | c :: cs, acc =>
    if is_space c then
      if acc = [] then splitWsAux cs [] else acc.reverse :: splitWsAux cs []
    else splitWsAux cs (c :: acc)

/-- Python str.split() with no separator. -/
def py_split_ws (s : List Nat) : List (List Nat) := splitWsAux s []

/-- Python str.capitalize(): first code point upper-cased, the rest lower-cased. -/
def py_capitalize : List Nat → List Nat
  | [] => []
  | c :: cs => py_upper_char c :: cs.map py_lower_char

/-- Python sep.join(words) for sep a single space (code point 32). -/
def joinSpace : List (List Nat) → List Nat
  | [] => []
  | [w] => w
  | w :: ws => w ++ 32 :: joinSpace ws

/-- src/app.py lines 34-36, to_proper_case:
return (a space).join(word.capitalize() for word in name.strip().lower().split()) -/
def to_proper_case (name : List Nat) : List Nat :=
  joinSpace ((py_split_ws ((py_strip name).map py_lower_char)).map py_capitalize)

/-- Python string comparison: lexicographic on code points, a proper prefix
comes first.  This is the order used by list.sort() on strings. -/
def py_le : List Nat → List Nat → Bool
  | [], _ => true
  | _ :: _, [] => false
  | a :: as, b :: bs => if a < b then true else if a = b then py_le as bs else false

/-- `py_le` as a relation. -/
def py_le_prop (a b : List Nat) : Prop := py_le a b = true

instance : DecidableRel py_le_prop := fun a b => by
  unfold py_le_prop
  infer_instance

theorem py_le_total : ∀ a b : List Nat, py_le a b = true ∨ py_le b a = true
  | [], _ => Or.inl rfl
  | _ :: _, [] => Or.inr rfl
  | a :: as, b :: bs => by
    rcases Nat.lt_trichotomy a b with h | h | h
    · left
      simp [py_le, h]
    · subst h
      rcases py_le_total as bs with ih | ih
      · left
        simp [py_le, ih]
      · right
        simp [py_le, ih]
    · right
      simp [py_le, h]

theorem py_le_trans :
    ∀ a b c : List Nat, py_le a b = true → py_le b c = true → py_le a c = true
  | [], _, _, _, _ => rfl
  | _ :: _, [], _, h, _ => by simp [py_le] at h
  | _ :: _, _ :: _, [], _, h => by simp [py_le] at h
  | a :: as, b :: bs, c :: cs, h1, h2 => by
    simp only [py_le] at h1 h2 ⊢
    split_ifs at h1 h2 ⊢ <;> first
      | rfl
      | omega
      | exact py_le_trans as bs cs h1 h2

instance : IsTotal (List Nat) py_le_prop := ⟨py_le_total⟩

instance : IsTrans (List Nat) py_le_prop := ⟨fun a b c => py_le_trans a b c⟩

/-- Python names_text.split(?\n): split at every newline, keeping empty fields. -/
def split_nl : List Nat → List (List Nat)
  | [] => [[]]
  | c :: cs =>
    if c = 10 then [] :: split_nl cs
    else
      match split_nl cs with
      | [] => [[c]]
      | w :: ws => (c :: w) :: ws

/-- src/app.py line 550: names as the stripped nonempty lines of the input. -/
def parse_names (names_text : List Nat) : List (List Nat) :=
  ((split_nl names_text).map py_strip).filter (fun l => l ≠ [])

/-- src/app.py lines 549-557: for the gujarati style keep the submitted names
unchanged, otherwise title-case each name and sort the result.  Python
list.sort() is a stable ascending comparison sort; over strings equal
elements are identical, so any sorted permutation is the same list and
insertion sort is extensionally list.sort(). -/
def proper_names (font : String) (names : List (List Nat)) : List (List Nat) :=
  if font = "gujarati" then names
  else List.insertionSort py_le_prop (names.map to_proper_case)

example : to_proper_case (lit "govind patel") = lit "Govind Patel" := by decide
example : to_proper_case (lit "ANJU  SHAH ") = lit "Anju Shah" := by decide
example : parse_names (lit "govind patel\nANJU SHAH") =
    [lit "govind patel", lit "ANJU SHAH"] := by decide
example : proper_names "arial" [lit "govind patel", lit "ANJU SHAH"] =
    [lit "Anju Shah", lit "Govind Patel"] := by decide
example : proper_names "gujarati" [lit "b", lit "a"] = [lit "b", lit "a"] := by decide

/-! ### Whitespace shape of title-cased names (claim C9) -/

/-- The first code point, if any, is not whitespace. -/
def head_not_space (s : List Nat) : Bool :=
  match s with
  | [] => true
  | c :: _ => !is_space c

/-- The last code point, if any, is not whitespace. -/
def last_not_space (s : List Nat) : Bool := head_not_space s.reverse

/-- No two adjacent code points are both whitespace. -/
def no_adjacent_space : List Nat → Bool
  | a :: b :: rest => (!(is_space a && is_space b)) && no_adjacent_space (b :: rest)
  | _ => true

/-- Every whitespace code point is a plain space (code point 32). -/
def spaces_single (s : List Nat) : Bool := s.all (fun c => !is_space c || c == 32)

theorem is_space_py_upper_char (c : Nat) (h : is_space c = false) :
    is_space (py_upper_char c) = false := by
  simp only [py_upper_char]
  split
  · simp only [is_space] at *
    simp only [Bool.or_eq_false_iff, beq_eq_false_iff_ne, ne_eq] at *
    omega
  · exact h

theorem is_space_py_lower_char (c : Nat) (h : is_space c = false) :
    is_space (py_lower_char c) = false := by
  simp only [py_lower_char]
  split
  · simp only [is_space] at *
    simp only [Bool.or_eq_false_iff, beq_eq_false_iff_ne, ne_eq] at *
    omega
  · exact h

/-- A word produced by whitespace splitting: nonempty and whitespace-free. -/
def good_word (w : List Nat) : Prop := w ≠ [] ∧ ∀ c ∈ w, is_space c = false

theorem splitWsAux_good :
    ∀ (s acc : List Nat), (∀ c ∈ acc, is_space c = false) →
      ∀ w ∈ splitWsAux s acc, good_word w
  | [], acc, hacc, w, hw => by
    simp only [splitWsAux] at hw
    split at hw
    · simp at hw
    · rename_i hne
      simp only [List.mem_singleton] at hw
      subst hw
      refine ⟨by simpa using hne, ?_⟩
      intro c hc
      exact hacc c (List.mem_reverse.mp hc)
  | c :: cs, acc, hacc, w, hw => by
    simp only [splitWsAux] at hw
    split at hw
    · split at hw
      · exact splitWsAux_good cs [] (by simp) w hw
      · rename_i hne
        rcases List.mem_cons.mp hw with h | h
        · subst h
          exact ⟨by simpa using hne, fun d hd => hacc d (List.mem_reverse.mp hd)⟩
        · exact splitWsAux_good cs [] (by simp) w h
    · rename_i hcs
      refine splitWsAux_good cs (c :: acc) ?_ w hw
      intro d hd
      rcases List.mem_cons.mp hd with h | h
      · subst h
        simpa using hcs
      · exact hacc d h

theorem good_word_py_capitalize (w : List Nat) (h : good_word w) :
    good_word (py_capitalize w) := by
  obtain ⟨hne, hall⟩ := h
  match w with
  | [] => exact absurd rfl hne
  | c :: cs =>
    refine ⟨by simp [py_capitalize], ?_⟩
    intro d hd
    simp only [py_capitalize, List.mem_cons, List.mem_map] at hd
    rcases hd with h | ⟨e, he, hde⟩
    · subst h
      exact is_space_py_upper_char c (hall c (by simp))
    · subst hde
      exact is_space_py_lower_char e (hall e (by simp [he]))

theorem joinSpace_ne_nil :
    ∀ ws : List (List Nat), (∀ w ∈ ws, good_word w) → ws ≠ [] → joinSpace ws ≠ []
  | [], _, h => absurd rfl h
  | [w], hg, _ => by simpa [joinSpace] using (hg w (by simp)).1
  | w :: w2 :: ws, hg, _ => by simp [joinSpace]

theorem head_not_space_append (l₁ l₂ : List Nat) (h : l₁ ≠ []) :
    head_not_space (l₁ ++ l₂) = head_not_space l₁ := by
  match l₁, h with
  | c :: cs, _ => rfl

theorem head_not_space_of_all (s : List Nat) (h : ∀ c ∈ s, is_space c = false) :
    head_not_space s = true := by
  match s with
  | [] => rfl
  | c :: cs => simp [head_not_space, h c (by simp)]

theorem head_not_space_joinSpace :
    ∀ ws : List (List Nat), (∀ w ∈ ws, good_word w) → head_not_space (joinSpace ws) = true
  | [], _ => rfl
  | [w], hg => by
    obtain ⟨hne, hall⟩ := hg w (by simp)
    match w, hne with
    | c :: cs, _ => simp [joinSpace, head_not_space, hall c (by simp)]
  | w :: w2 :: ws, hg => by
    obtain ⟨hne, hall⟩ := hg w (by simp)
    match w, hne with
    | c :: cs, _ => simp [joinSpace, head_not_space, hall c (by simp)]

theorem last_not_space_joinSpace :
    ∀ ws : List (List Nat), (∀ w ∈ ws, good_word w) → last_not_space (joinSpace ws) = true
  | [], _ => rfl
  | [w], hg => by
    obtain ⟨hne, hall⟩ := hg w (by simp)
    unfold last_not_space
    refine head_not_space_of_all _ ?_
    intro c hc
    exact hall c (by simpa [joinSpace] using hc)
  | w :: w2 :: ws, hg => by
    have hgood : ∀ u ∈ w2 :: ws, good_word u := fun u hu => hg u (List.mem_cons_of_mem _ hu)
    have ih := last_not_space_joinSpace (w2 :: ws) hgood
    have hjne : joinSpace (w2 :: ws) ≠ [] := joinSpace_ne_nil _ hgood (by simp)
    have hrev : (joinSpace (w2 :: ws)).reverse ≠ [] := by simpa using hjne
    unfold last_not_space at ih ⊢
    have hjs : joinSpace (w :: w2 :: ws) = w ++ 32 :: joinSpace (w2 :: ws) := by
      simp [joinSpace]
    rw [hjs, List.reverse_append, List.reverse_cons, List.append_assoc,
      head_not_space_append _ _ hrev]
    exact ih

theorem no_adjacent_space_append (w rest : List Nat)
    (hw : ∀ c ∈ w, is_space c = false) (hr : no_adjacent_space rest = true) :
    no_adjacent_space (w ++ rest) = true := by
  match w with
  | [] => simpa using hr
  | [c] =>
    match rest, hr with
    | [], _ => simp [no_adjacent_space]
    | r :: rs, hr =>
      simp only [List.singleton_append, no_adjacent_space]
      simp [hw c (by simp), hr]
  | c :: c2 :: cs =>
    have ih := no_adjacent_space_append (c2 :: cs) rest
      (fun d hd => hw d (List.mem_cons_of_mem _ hd)) hr
    have hc := hw c (by simp)
    simp only [List.cons_append] at ih ⊢
    simpa [no_adjacent_space, hc] using ih

theorem no_adjacent_space_joinSpace :
    ∀ ws : List (List Nat), (∀ w ∈ ws, good_word w) → no_adjacent_space (joinSpace ws) = true
  | [], _ => rfl
  | [w], hg => by
    simpa [joinSpace] using no_adjacent_space_append w [] (hg w (by simp)).2 rfl
  | w :: w2 :: ws, hg => by
    have hgood : ∀ u ∈ w2 :: ws, good_word u := fun u hu => hg u (List.mem_cons_of_mem _ hu)
    have ih := no_adjacent_space_joinSpace (w2 :: ws) hgood
    have hhead := head_not_space_joinSpace (w2 :: ws) hgood
    have h32 : no_adjacent_space (32 :: joinSpace (w2 :: ws)) = true := by
      cases hj : joinSpace (w2 :: ws) with
      | nil => rfl
      | cons c cs =>
        rw [hj] at ih hhead
        simp only [head_not_space, Bool.not_eq_eq_eq_not, Bool.not_true] at hhead
        simp [no_adjacent_space, ih, hhead]
    have hjs : joinSpace (w :: w2 :: ws) = w ++ 32 :: joinSpace (w2 :: ws) := by
      simp [joinSpace]
    rw [hjs]
    exact no_adjacent_space_append _ _ (hg w (by simp)).2 h32

theorem spaces_single_joinSpace :
    ∀ ws : List (List Nat), (∀ w ∈ ws, good_word w) → spaces_single (joinSpace ws) = true
  | [], _ => rfl
  | [w], hg => by
    have hall := (hg w (by simp)).2
    simp only [joinSpace, spaces_single, List.all_eq_true]
    intro c hc
    simp [hall c hc]
  | w :: w2 :: ws, hg => by
    have ih := spaces_single_joinSpace (w2 :: ws) (fun u hu => hg u (List.mem_cons_of_mem _ hu))
    have hall := (hg w (by simp)).2
    have hjs : joinSpace (w :: w2 :: ws) = w ++ 32 :: joinSpace (w2 :: ws) := by
      simp [joinSpace]
    rw [hjs]
    simp only [spaces_single, List.all_eq_true] at ih ⊢
    intro c hc
    rcases List.mem_append.mp hc with h | h
    · simp [hall c h]
    · rcases List.mem_cons.mp h with h | h
      · subst h
        simp
      · exact ih c h

theorem good_words_of_to_proper_case (name : List Nat) :
    ∀ w ∈ (py_split_ws ((py_strip name).map py_lower_char)).map py_capitalize, good_word w := by
  intro w hw
  rcases List.mem_map.mp hw with ⟨u, hu, rfl⟩
  exact good_word_py_capitalize u (splitWsAux_good _ [] (by simp) u hu)

/-- C9: for every input string, to_proper_case (src/app.py lines 34-36) also
normalizes whitespace: the result has no leading whitespace, no trailing
whitespace, no two consecutive whitespace code points, and every whitespace
code point in it is a single plain space. -/
theorem title_case_normalizes_whitespace (name : List Nat) :
    head_not_space (to_proper_case name) = true ∧
    last_not_space (to_proper_case name) = true ∧
    no_adjacent_space (to_proper_case name) = true ∧
    spaces_single (to_proper_case name) = true := by
  have h := good_words_of_to_proper_case name
  exact ⟨head_not_space_joinSpace _ h, last_not_space_joinSpace _ h,
    no_adjacent_space_joinSpace _ h, spaces_single_joinSpace _ h⟩

/-! ### Name ordering policy (claim C1) -/

/-- C1: for a batch run (src/app.py lines 549-557), the processed name list for
the gujarati style is the submitted names in their exact order with no case
transform, while for every other (Latin) style it is the title-cased input
names in alphabetical code point order: sorted, and a permutation of the
title-cased input names. -/
theorem batch_name_ordering (font : String) (names_text : List Nat) :
    if font = "gujarati" then
      proper_names font (parse_names names_text) = parse_names names_text
    else
      List.Sorted py_le_prop (proper_names font (parse_names names_text)) ∧
      List.Perm (proper_names font (parse_names names_text))
        ((parse_names names_text).map to_proper_case) := by
  by_cases h : font = "gujarati"
  · rw [if_pos h]
    unfold proper_names
    rw [if_pos h]
  · rw [if_neg h]
    unfold proper_names
    rw [if_neg h]
    exact ⟨List.sorted_insertionSort py_le_prop _, List.perm_insertionSort py_le_prop _⟩

/-! ### Font verification (claims C4, C10) -/

/-- A Pillow bounding box (x0, y0, x1, y1) as returned by draw.textbbox. -/
structure BBox where
  x0 : Int
  y0 : Int
  x1 : Int
  y1 : Int
deriving DecidableEq

/-- Environment of check_font_supports_gujarati: whether
ImageFont.truetype(font_path, 12) succeeds, and for each probe code point the
outcome of draw.textbbox; none models a raised exception. -/
structure FontEnv where
  loads : Bool
  probe : Nat → Option BBox

/-- The probe characters of src/app.py line 44. -/
def gujarati_test_chars : List Nat := lit "અકગજન"

/-- src/app.py lines 39-59, check_font_supports_gujarati: if the font fails to
load the outer handler falls through to False; otherwise each probe character
is tried in order, a raising probe is skipped, and True is returned exactly
when some probe yields a bounding box of positive width. -/
def check_font_supports_gujarati (env : FontEnv) : Bool :=
  if env.loads then
    gujarati_test_chars.any (fun c =>
      match env.probe c with
      | some bbox => decide (bbox.x1 - bbox.x0 > 0)
      | none => false)
  else false

/-- C4: font verification (src/app.py lines 39-59) accepts a candidate if and
only if the font loads and at least one Gujarati probe glyph yields a bounding
box of non-zero width; in particular a font that loads but reports zero-width
boxes for every probe is rejected.  The hypothesis is the Pillow bounding box
invariant x0 <= x1. -/
theorem font_verification_accepts_iff (env : FontEnv)
    (hwf : ∀ c b, env.probe c = some b → b.x0 ≤ b.x1) :
    (check_font_supports_gujarati env = true ↔
      (env.loads = true ∧
        ∃ c ∈ gujarati_test_chars, ∃ b, env.probe c = some b ∧ b.x1 - b.x0 ≠ 0)) ∧
    ((∀ c b, env.probe c = some b → b.x1 - b.x0 = 0) →
      check_font_supports_gujarati env = false) := by
  have hiff : check_font_supports_gujarati env = true ↔
      (env.loads = true ∧
        ∃ c ∈ gujarati_test_chars, ∃ b, env.probe c = some b ∧ b.x1 - b.x0 ≠ 0) := by
    unfold check_font_supports_gujarati
    cases hl : env.loads with
    | false => simp
    | true =>
      simp only [if_true, List.any_eq_true, true_and]
      constructor
      · rintro ⟨c, hc, hmatch⟩
        refine ⟨c, hc, ?_⟩
        cases hp : env.probe c with
        | none =>
          rw [hp] at hmatch
          simp at hmatch
        | some b =>
          rw [hp] at hmatch
          simp only [decide_eq_true_eq] at hmatch
          exact ⟨b, rfl, by omega⟩
      · rintro ⟨c, hc, b, hp, hne⟩
        refine ⟨c, hc, ?_⟩
        rw [hp]
        have := hwf c b hp
        simp only [decide_eq_true_eq]
        omega
  refine ⟨hiff, ?_⟩
  intro hzero
  cases hch : check_font_supports_gujarati env with
  | false => rfl
  | true =>
    obtain ⟨-, c, -, b, hp, hne⟩ := hiff.mp hch
    exact absurd (hzero c b hp) hne

/-- A concrete font environment whose probe for ક (2709) has positive width. -/
def fontEnvOk : FontEnv :=
  { loads := true
    probe := fun c => if c = 2709 then some ⟨0, 0, 7, 12⟩ else some ⟨0, 0, 0, 12⟩ }

theorem fontEnvOk_wf : ∀ c b, fontEnvOk.probe c = some b → b.x0 ≤ b.x1 := by
  intro c b h
  by_cases hc : c = 2709 <;> simp [fontEnvOk, hc] at h <;> subst h <;> decide

/-- Witness for C4 at a concrete environment. -/
theorem font_verification_accepts_iff_witness :
    (check_font_supports_gujarati fontEnvOk = true ↔
      (fontEnvOk.loads = true ∧
        ∃ c ∈ gujarati_test_chars, ∃ b, fontEnvOk.probe c = some b ∧ b.x1 - b.x0 ≠ 0)) ∧
    ((∀ c b, fontEnvOk.probe c = some b → b.x1 - b.x0 = 0) →
      check_font_supports_gujarati fontEnvOk = false) :=
  font_verification_accepts_iff fontEnvOk fontEnvOk_wf

/-- C10: the font verification routine is total at its interface: it returns a
boolean for every environment, a font load failure yields the verdict False,
and an environment whose every probe raises also yields False — every load or
probe error is absorbed, never propagated. -/
theorem font_check_absorbs_errors (env : FontEnv) :
    (check_font_supports_gujarati env = true ∨ check_font_supports_gujarati env = false) ∧
    (env.loads = false → check_font_supports_gujarati env = false) ∧
    ((∀ c, env.probe c = none) → check_font_supports_gujarati env = false) := by
  refine ⟨?_, ?_, ?_⟩
  · cases check_font_supports_gujarati env
    · exact Or.inr rfl
    · exact Or.inl rfl
  · intro h
    unfold check_font_supports_gujarati
    rw [h]
    simp
  · intro h
    unfold check_font_supports_gujarati
    cases env.loads
    · simp
    · simp [h]

/-- A font environment whose load fails. -/
def fontEnvNoLoad : FontEnv := { loads := false, probe := fun _ => some ⟨0, 0, 5, 5⟩ }

/-- A font environment whose every probe raises. -/
def fontEnvAllRaise : FontEnv := { loads := true, probe := fun _ => none }

/-- Witness for C10: load failure and all-probes-raising both yield False. -/
theorem font_check_absorbs_errors_witness :
    check_font_supports_gujarati fontEnvNoLoad = false ∧
    check_font_supports_gujarati fontEnvAllRaise = false :=
  ⟨(font_check_absorbs_errors fontEnvNoLoad).2.1 rfl,
   (font_check_absorbs_errors fontEnvAllRaise).2.2 (fun _ => rfl)⟩

/-! ### Text width estimation and centering (claims C2, C6) -/

/-- src/app.py lines 410-411 and 426-431: last-resort width estimate when no
bounding box can be computed: len(name) * (font_size * factor), with factor
0.5 for the gujarati style and 0.6 otherwise. -/
def estimate_width (font_name : String) (name_len fontSize : Nat) : ℚ :=
  if font_name = "gujarati" then (name_len : ℚ) * ((fontSize : ℚ) * (1 / 2))
  else (name_len : ℚ) * ((fontSize : ℚ) * (3 / 5))

/-- C2: the last-resort estimate is characterCount * fontSize * widthFactor,
but the width factor the code uses for the gujarati script (0.5) is smaller,
not strictly larger, than the Latin factor (0.6): at name length 10 and font
size 48 the gujarati estimate is 240 while the Latin estimate is 288.  This
contradicts the claim, and the comment at src/app.py line 428 saying Gujarati
characters are wider. -/
theorem estimate_width_gujarati_factor_smaller :
    estimate_width "gujarati" 10 48 = 10 * 48 * (1 / 2) ∧
    estimate_width "arial" 10 48 = 10 * 48 * (3 / 5) ∧
    estimate_width "gujarati" 10 48 = 240 ∧
    estimate_width "arial" 10 48 = 288 ∧
    ¬ (estimate_width "arial" 10 48 < estimate_width "gujarati" 10 48) := by
  have hne : ¬ ("arial" : String) = "gujarati" := by decide
  refine ⟨?_, ?_, ?_, ?_, ?_⟩ <;> norm_num [estimate_width, hne]

/-- Which measurement path generate_certificate_image takes for a render. -/
inductive MeasureEnv where
  | shaped (advances : List Int)
  | bboxOk (x0 y0 x1 y1 : Int)
  | bboxFails

/-- src/app.py lines 390, 407-412 and 420-431: the computed text width: sum of
shaped x_advance // 64 on the HarfBuzz path, x1 - x0 when draw.textbbox
succeeds, and the last-resort estimate otherwise. -/
def measured_text_width (font_name : String) (env : MeasureEnv)
    (name_len fontSize : Nat) : ℚ :=
  match env with
  | .shaped advances => (((advances.map (fun a => Int.fdiv a 64)).sum : Int) : ℚ)
  | .bboxOk x0 _ x1 _ => ((x1 - x0 : Int) : ℚ)
  | .bboxFails => estimate_width font_name name_len fontSize

/-- src/app.py line 370: center_x = width / 2. -/
def center_x (imageWidth : ℚ) : ℚ := imageWidth / 2

/-- src/app.py lines 394, 414 and 434: x_position = center_x - text_width / 2. -/
def x_position (imageWidth text_width : ℚ) : ℚ := center_x imageWidth - text_width / 2

/-- C6: on every measurement path the horizontal draw position equals
imageWidth/2 - textWidth/2 (there is no alignment option), so the midpoint of
the rendered text span [x, x + textWidth] is within 1 pixel of the image
horizontal center (it is exactly centered). -/
theorem rendered_text_centered (font_name : String) (env : MeasureEnv)
    (name_len fontSize : Nat) (imageWidth : ℚ) :
    x_position imageWidth (measured_text_width font_name env name_len fontSize) =
      imageWidth / 2 - measured_text_width font_name env name_len fontSize / 2 ∧
    |(x_position imageWidth (measured_text_width font_name env name_len fontSize) +
        (x_position imageWidth (measured_text_width font_name env name_len fontSize) +
          measured_text_width font_name env name_len fontSize)) / 2 -
      imageWidth / 2| ≤ 1 := by
  constructor
  · rfl
  · have h : x_position imageWidth (measured_text_width font_name env name_len fontSize) +
        (x_position imageWidth (measured_text_width font_name env name_len fontSize) +
          measured_text_width font_name env name_len fontSize) = imageWidth := by
      simp only [x_position, center_x]
      ring
    rw [h]
    simp

/-! ### PDF merging (claim C5) -/

/-- An input to combine_pdfs: its path, whether os.path.exists holds at merge
time, whether pikepdf.Pdf.open succeeds, and its pages. -/
structure PdfInput where
  path : List Nat
  onDisk : Bool
  opensOk : Bool
  pages : List Nat
deriving DecidableEq

/-- src/app.py lines 464-494, combine_pdfs: fail on an empty argument list,
filter out inputs that do not exist, fail when none exist, append the pages of
each remaining input in order skipping (logging) any that fails to open, then
save.  The model returns the merged page list on success and none on failure;
writeOk models the save raising or the output file missing afterwards. -/
def combine_pdfs (inputs : List PdfInput) (writeOk : Bool) : Option (List Nat) :=
  if inputs = [] then none
  else
    let existing := inputs.filter (fun p => p.onDisk)
    if existing = [] then none
    else
      let merged := (existing.filter (fun p => p.opensOk)).flatMap (fun p => p.pages)
      if writeOk then some merged else none

theorem combine_pdfs_eq (inputs : List PdfInput) (writeOk : Bool) :
    combine_pdfs inputs writeOk =
      if inputs.filter (fun p => p.onDisk) = [] then none
      else if writeOk then
        some (((inputs.filter (fun p => p.onDisk)).filter (fun p => p.opensOk)).flatMap
          (fun p => p.pages))
      else none := by
  unfold combine_pdfs
  by_cases h : inputs = []
  · subst h
    simp
  · rw [if_neg h]

/-- An existing, openable one-page input. -/
def pdfInA : PdfInput := ⟨lit "a.pdf", true, true, [1]⟩

/-- An existing input that fails to open. -/
def pdfInB : PdfInput := ⟨lit "b.pdf", true, false, [2]⟩

/-- Counterexample to C5 as stated: with inputs A (existing, openable, page 1)
and B (existing but failing to open, page 2), the merge succeeds but its
result omits the pages of the existing input B, so the combined document is
not the pages of all existing inputs in input order. -/
theorem combine_pdfs_claim_counterexample :
    combine_pdfs [pdfInA, pdfInB] true = some [1] ∧
    ([pdfInA, pdfInB].filter (fun p => p.onDisk)).flatMap (fun p => p.pages) = [1, 2] ∧
    ¬ combine_pdfs [pdfInA, pdfInB] true =
        some (([pdfInA, pdfInB].filter (fun p => p.onDisk)).flatMap (fun p => p.pages)) := by
  refine ⟨by decide, by decide, by decide⟩

/-- C5 (amended): the merge appends, in input order, the pages of the existing
inputs that open successfully (an existing input that fails to open is logged
and skipped as well); an input path that does not exist at merge time is
silently skipped, its removal leaving the result unchanged; and the merge
fails if and only if zero inputs existed or the final write fails. -/
theorem combine_pdfs_behavior (inputs : List PdfInput) (writeOk : Bool)
    (b : PdfInput) (hb : b.onDisk = false) (pre post : List PdfInput) :
    (combine_pdfs inputs writeOk = none ↔
      (inputs.filter (fun p => p.onDisk) = [] ∨ writeOk = false)) ∧
    (∀ ps, combine_pdfs inputs writeOk = some ps →
      ps = ((inputs.filter (fun p => p.onDisk)).filter (fun p => p.opensOk)).flatMap
        (fun p => p.pages)) ∧
    combine_pdfs (pre ++ b :: post) writeOk = combine_pdfs (pre ++ post) writeOk := by
  refine ⟨?_, ?_, ?_⟩
  · rw [combine_pdfs_eq]
    by_cases h : inputs.filter (fun p => p.onDisk) = []
    · simp [h]
    · cases writeOk <;> simp [h]
  · intro ps hps
    rw [combine_pdfs_eq] at hps
    by_cases h : inputs.filter (fun p => p.onDisk) = []
    · rw [if_pos h] at hps
      cases hps
    · rw [if_neg h] at hps
      cases writeOk
      · simp at hps
      · simp only [if_true] at hps
        cases hps
        rfl
  · rw [combine_pdfs_eq, combine_pdfs_eq]
    have hf : (pre ++ b :: post).filter (fun p => p.onDisk) =
        (pre ++ post).filter (fun p => p.onDisk) := by
      simp [List.filter_append, List.filter_cons, hb]
    rw [hf]

/-- An input path that does not exist at merge time. -/
def pdfInMissing : PdfInput := ⟨lit "m.pdf", false, true, [9]⟩

/-- Witness for the amended C5 at concrete inputs. -/
theorem combine_pdfs_behavior_witness :
    (combine_pdfs [pdfInA] true = none ↔
      ([pdfInA].filter (fun p => p.onDisk) = [] ∨ true = false)) ∧
    (∀ ps, combine_pdfs [pdfInA] true = some ps →
      ps = (([pdfInA].filter (fun p => p.onDisk)).filter (fun p => p.opensOk)).flatMap
        (fun p => p.pages)) ∧
    combine_pdfs ([pdfInA] ++ pdfInMissing :: []) true = combine_pdfs ([pdfInA] ++ []) true :=
  combine_pdfs_behavior [pdfInA] true pdfInMissing rfl [pdfInA] []

/-! ### The batch process route (claims C3, C7) -/

/-- Python str.isalnum, modelled over ASCII and treating code points at or
above 128 as alphanumeric (the Gujarati letters used by the program are). -/
def py_isalnum (n : Nat) : Bool :=
  (decide (48 ≤ n) && decide (n ≤ 57)) || (decide (65 ≤ n) && decide (n ≤ 90)) ||
    (decide (97 ≤ n) && decide (n ≤ 122)) || decide (128 ≤ n)

/-- src/app.py line 579: keep alphanumerics, space, hyphen and underscore,
replace every other character by an underscore. -/
def safe_char (n : Nat) : Nat :=
  if py_isalnum n || n == 32 || n == 45 || n == 95 then n else 95

/-- src/app.py line 579: the sanitized filename form of a name. -/
def safe_name (name : List Nat) : List Nat := name.map safe_char

/-- Decimal digits of n as code points. -/
def natToDec (n : Nat) : List Nat := (Nat.toDigits 10 n).map Char.toNat

/-- src/app.py line 580: output filename
cert_(index+1)_(safe name with spaces replaced by underscores).png. -/
def output_filename (index : Nat) (name : List Nat) : List Nat :=
  lit "cert_" ++ natToDec (index + 1) ++ [95] ++
    (safe_name name).map (fun c => if c = 32 then 95 else c) ++ lit ".png"

/-- Python str.replace: replace every occurrence of pat (nonempty) by rep. -/
def replaceAll (pat rep : List Nat) : List Nat → List Nat
  | [] => []
  | c :: cs =>
    if h : pat ≠ [] ∧ pat.isPrefixOf (c :: cs) then
      rep ++ replaceAll pat rep ((c :: cs).drop pat.length)
    else c :: replaceAll pat rep cs
termination_by s => s.length
decreasing_by
  · simp only [List.length_drop, List.length_cons]
    have : 1 ≤ pat.length := List.length_pos.mpr h.1
    omega
  · simp

/-- src/app.py line 443: the jpg path, output_path.replace(.png, .jpg). -/
def jpg_name (index : Nat) (name : List Nat) : List Nat :=
  replaceAll (lit ".png") (lit ".jpg") (output_filename index name)

/-- src/app.py line 608: the pdf file name, output_filename.replace(.png, .pdf). -/
def pdf_name (index : Nat) (name : List Nat) : List Nat :=
  replaceAll (lit ".png") (lit ".pdf") (output_filename index name)

/-- The per-name manifest record file_info of src/app.py lines 601-611. -/
structure FileInfo where
  name : List Nat
  jpg : List Nat
  pdf : Option (List Nat)
deriving DecidableEq

/-- Environment of the process route: whether find_gujarati_font(12) finds a
font, the message of the exception raised by generate_certificate_image per
name index if any, whether generate_pdf succeeds and its output exists per
index, and whether combine_pdfs succeeds. -/
structure ProcEnv where
  gujaratiFontFound : Bool
  renderExn : Nat → Option (List Nat)
  pdfOk : Nat → Bool
  combineOk : Bool

/-- The user-facing message of src/app.py lines 570-573. -/
def gujarati_font_not_found_msg : List Nat :=
  lit "Gujarati font not found on your system. Please install a Gujarati font like Shruti or Noto Sans Gujarati. Common locations: C:/Windows/Fonts/"

/-- The message of src/app.py line 542. -/
def empty_names_msg : List Nat := lit "Please provide at least one name"

/-- Result of the /process route: an HTTP error (status, message, certificate
files written before the failure) or success (processed name list, manifest
file records, certificate files written, combined-PDF flag). -/
inductive ProcResult where
  | err (status : Nat) (message : List Nat) (written : List (List Nat))
  | ok (names : List (List Nat)) (files : List FileInfo)
      (written : List (List Nat)) (hasCombined : Bool)
deriving DecidableEq

/-- src/app.py lines 577-613, the per-name loop: render the certificate (on an
exception the batch fails, with the dedicated 500 message when the style is
gujarati and the message mentions a font), record the name and jpg, attempt
the PDF when requested, and continue with the remaining names.  Returns the
file records and the files written, or the failure message together with the
files written before it. -/
def certLoop (env : ProcEnv) (font : String) (pdfFlag : Bool) :
    Nat → List (List Nat) →
      Except (List Nat × List (List Nat)) (List FileInfo × List (List Nat))
  | _, [] => .ok ([], [])
  | i, n :: rest =>
    match env.renderExn i with
    | some msg =>
      if font = "gujarati" ∧ lit "font" <:+: msg.map py_lower_char then
        .error (lit "Error rendering Gujarati text: " ++ msg ++
          lit ". Please ensure a Gujarati font is installed.", [])
      else .error (msg, [])
    | none =>
      let written := output_filename i n :: jpg_name i n ::
        (if pdfFlag && env.pdfOk i then [pdf_name i n] else [])
      let fi : FileInfo :=
        { name := n, jpg := jpg_name i n,
          pdf := if pdfFlag && env.pdfOk i then some (pdf_name i n) else none }
      match certLoop env font pdfFlag (i + 1) rest with
      | .error (m, ws) => .error (m, written ++ ws)
      | .ok (fis, ws) => .ok (fi :: fis, written ++ ws)

/-- src/app.py lines 503-654, the process route after template validation:
reject an empty name list, compute the processed names, abort with the font
error when the gujarati style has no usable font, then run the per-name loop,
decide the combined PDF, and succeed with the manifest data. -/
def process (env : ProcEnv) (font : String) (names_text : List Nat)
    (pdfFlag : Bool) : ProcResult :=
  if py_strip names_text = [] then .err 400 empty_names_msg []
  else
    if font = "gujarati" ∧ env.gujaratiFontFound = false then
      .err 400 gujarati_font_not_found_msg []
    else
      match certLoop env font pdfFlag 0 (proper_names font (parse_names names_text)) with
      | .error (msg, ws) => .err 500 msg ws
      | .ok (files, ws) =>
        .ok (proper_names font (parse_names names_text)) files ws
          (pdfFlag && files.any (fun fi => fi.pdf.isSome) && env.combineOk)

/-- C3: when the gujarati style is requested with a nonempty name list and the
font resolver finds no usable font, the batch aborts with the user-facing
font-not-found error before any certificate image is written: the result is a
400 error carrying that message and an empty written-file list, so no
per-name rendering occurred. -/
theorem gujarati_font_missing_aborts (env : ProcEnv) (names_text : List Nat)
    (pdfFlag : Bool) (hne : ¬ py_strip names_text = [])
    (hfont : env.gujaratiFontFound = false) :
    process env "gujarati" names_text pdfFlag =
      ProcResult.err 400 gujarati_font_not_found_msg [] := by
  unfold process
  rw [if_neg hne, if_pos ⟨rfl, hfont⟩]

/-- A process environment with no gujarati font and inert hooks. -/
def envNoGujarati : ProcEnv :=
  { gujaratiFontFound := false
    renderExn := fun _ => none
    pdfOk := fun _ => false
    combineOk := false }

/-- Witness for C3: a concrete gujarati batch with no usable font aborts with
the font error and nothing written. -/
theorem gujarati_font_missing_aborts_witness :
    process envNoGujarati "gujarati" (lit "અનિલ શાહ") true =
      ProcResult.err 400 gujarati_font_not_found_msg [] :=
  gujarati_font_missing_aborts envNoGujarati (lit "અનિલ શાહ") true (by decide) rfl

/-- C7: with PDFs requested and every render succeeding, the per-name loop of
src/app.py lines 577-613 processes every name: the k-th record holds the k-th
name with its jpg, its pdf entry is present exactly when that name's PDF
conversion succeeded — a failed conversion leaves the record without a pdf
entry but keeps it — the name's png and jpg outputs are among the written
files, and the loop never aborts on a PDF failure. -/
theorem pdf_failure_nonfatal (env : ProcEnv) (font : String) (i : Nat)
    (pnames : List (List Nat)) (hr : ∀ j, env.renderExn j = none) :
    ∃ fis ws, certLoop env font true i pnames = .ok (fis, ws) ∧
      fis.length = pnames.length ∧
      ∀ k (hk : k < pnames.length),
        fis[k]? = some
          { name := pnames.get ⟨k, hk⟩,
            jpg := jpg_name (i + k) (pnames.get ⟨k, hk⟩),
            pdf := if env.pdfOk (i + k) then some (pdf_name (i + k) (pnames.get ⟨k, hk⟩))
              else none } ∧
        output_filename (i + k) (pnames.get ⟨k, hk⟩) ∈ ws ∧
        jpg_name (i + k) (pnames.get ⟨k, hk⟩) ∈ ws := by
  induction pnames generalizing i with
  | nil =>
    exact ⟨[], [], rfl, rfl, fun k hk => absurd hk (by simp)⟩
  | cons n rest ih =>
    obtain ⟨fis, ws, heq, hlen, hmem⟩ := ih (i + 1)
    refine ⟨(⟨n, jpg_name i n,
        if env.pdfOk i then some (pdf_name i n) else none⟩ : FileInfo) :: fis,
      (output_filename i n :: jpg_name i n ::
        (if env.pdfOk i then [pdf_name i n] else [])) ++ ws, ?_, ?_, ?_⟩
    · simp only [certLoop, hr i, heq, Bool.true_and]
    · simp [hlen]
    · intro k hk
      match k with
      | 0 =>
        refine ⟨by simp, by simp, by simp⟩
      | k + 1 =>
        have hk2 : k < rest.length := by
          simpa using hk
        obtain ⟨h1, h2, h3⟩ := hmem k hk2
        have hidx : i + (k + 1) = i + 1 + k := by omega
        refine ⟨?_, ?_, ?_⟩
        · simpa [hidx] using h1
        · simp only [List.get_cons_succ, hidx]
          exact List.mem_append_right _ h2
        · simp only [List.get_cons_succ, hidx]
          exact List.mem_append_right _ h3

/-- A process environment whose first PDF conversion fails and the rest
succeed, with every render succeeding. -/
def envPdfFirstFails : ProcEnv :=
  { gujaratiFontFound := true
    renderExn := fun _ => none
    pdfOk := fun j => !(j == 0)
    combineOk := true }

/-- Witness for C7 at two concrete names whose first PDF conversion fails. -/
theorem pdf_failure_nonfatal_witness :
    ∃ fis ws,
      certLoop envPdfFirstFails "arial" true 0 [lit "a", lit "b"] = .ok (fis, ws) ∧
      fis.length = ([lit "a", lit "b"] : List (List Nat)).length ∧
      ∀ k (hk : k < ([lit "a", lit "b"] : List (List Nat)).length),
        fis[k]? = some
          { name := ([lit "a", lit "b"] : List (List Nat)).get ⟨k, hk⟩,
            jpg := jpg_name (0 + k) (([lit "a", lit "b"] : List (List Nat)).get ⟨k, hk⟩),
            pdf := if envPdfFirstFails.pdfOk (0 + k) then
                some (pdf_name (0 + k) (([lit "a", lit "b"] : List (List Nat)).get ⟨k, hk⟩))
              else none } ∧
        output_filename (0 + k) (([lit "a", lit "b"] : List (List Nat)).get ⟨k, hk⟩) ∈ ws ∧
        jpg_name (0 + k) (([lit "a", lit "b"] : List (List Nat)).get ⟨k, hk⟩) ∈ ws :=
  pdf_failure_nonfatal envPdfFirstFails "arial" 0 [lit "a", lit "b"] (fun _ => rfl)

/-! ### Manifest persistence (claim C8) -/

/-- A filesystem operation: a whole-file write via open(path, w), or an
atomic rename. -/
inductive FsOp where
  | writeFile (path data : List Nat)
  | rename (src dst : List Nat)
deriving DecidableEq

/-- A store of files: association list from path to content. -/
abbrev Store := List (List Nat × List Nat)

/-- Look a path up in a store. -/
def storeGet (st : Store) (p : List Nat) : Option (List Nat) :=
  match st.find? (fun e => e.1 == p) with
  | some e => some e.2
  | none => none

/-- Write a path in a store. -/
def storeSet (st : Store) (p d : List Nat) : Store :=
  (p, d) :: st.filter (fun e => !(e.1 == p))

/-- Run one filesystem operation to completion. -/
def applyOp (st : Store) : FsOp → Store
  | .writeFile p d => storeSet st p d
  | .rename s t =>
    match storeGet st s with
    | none => st
    | some d => storeSet (st.filter (fun e => !(e.1 == s))) t d

/-- The stores observable if a crash interrupts one operation: a whole-file
write can be cut short after any prefix of the data; a rename is atomic, so
only the before and after states are observable. -/
def midStates (st : Store) : FsOp → List Store
  | .writeFile p d =>
    (List.range (d.length + 1)).map (fun k => storeSet st p (d.take k))
  | .rename s t => [st, applyOp st (.rename s t)]

/-- All stores observable if a crash happens at any point of a plan run on
an initial store. -/
def crash_stores (st : Store) : List FsOp → List Store
  | [] => [st]
  | op :: rest => midStates st op ++ crash_stores (applyOp st op) rest

/-- The manifest path info.json of src/app.py line 641, relative to the
session directory. -/
def info_json_path : List Nat := lit "info.json"

/-- src/app.py lines 641-643: the manifest is persisted by a single direct
open(info_path, w) followed by json.dump — one whole-file write to the final
path, with no temporary file and no rename. -/
def manifest_write_plan (content : List Nat) : List FsOp :=
  [FsOp.writeFile info_json_path content]

/-- A plan writes a file atomically when no whole-file write targets the
final path directly and the content arrives by a rename onto it. -/
def atomic_plan (plan : List FsOp) (final : List Nat) : Bool :=
  plan.all (fun op =>
    match op with
    | .writeFile p _ => !(p == final)
    | .rename _ _ => true) &&
  plan.any (fun op =>
    match op with
    | .writeFile _ _ => false
    | .rename _ dst => dst == final)

/-- Counterexample to C8 as stated: for the concrete manifest content
"sessioninfo", a crash during the write plan of src/app.py lines 641-643 can
leave the manifest file holding a proper nonempty prefix of the content —
partially written and readable — so the write is not atomic and the file is
not always either complete or absent. -/
theorem manifest_write_not_atomic_counterexample :
    ¬ ∀ st ∈ crash_stores [] (manifest_write_plan (lit "sessioninfo")),
        storeGet st info_json_path = none ∨
        storeGet st info_json_path = some (lit "sessioninfo") := by
  decide

/-- C8 (amended): the batch manifest is not written atomically: the write plan
of src/app.py lines 641-643 is a single direct whole-file write to the final
manifest path with no temp-write-then-rename, and for any manifest content of
at least two code points a crash during the write can leave the manifest file
holding a nonempty, incomplete content readable by a later request. -/
theorem manifest_write_direct (content : List Nat) (h2 : 2 ≤ content.length) :
    manifest_write_plan content = [FsOp.writeFile info_json_path content] ∧
    atomic_plan (manifest_write_plan content) info_json_path = false ∧
    ∃ st ∈ crash_stores [] (manifest_write_plan content),
      storeGet st info_json_path ≠ none ∧
      storeGet st info_json_path ≠ some content := by
  refine ⟨rfl, rfl, ?_⟩
  refine ⟨storeSet [] info_json_path (content.take 1), ?_, ?_, ?_⟩
  · simp only [manifest_write_plan, crash_stores, midStates]
    apply List.mem_append_left
    exact List.mem_map.mpr ⟨1, List.mem_range.mpr (by omega), rfl⟩
  · have hget : storeGet (storeSet [] info_json_path (content.take 1)) info_json_path
        = some (content.take 1) := rfl
    rw [hget]
    simp
  · have hget : storeGet (storeSet [] info_json_path (content.take 1)) info_json_path
        = some (content.take 1) := rfl
    rw [hget]
    intro hcontra
    have h1 : content.take 1 = content := by
      injection hcontra
    have hlen := congrArg List.length h1
    simp only [List.length_take] at hlen
    omega

/-- Witness for the amended C8 at a concrete manifest content. -/
theorem manifest_write_direct_witness :
    manifest_write_plan (lit "sessioninfo") =
      [FsOp.writeFile info_json_path (lit "sessioninfo")] ∧
    atomic_plan (manifest_write_plan (lit "sessioninfo")) info_json_path = false ∧
    ∃ st ∈ crash_stores [] (manifest_write_plan (lit "sessioninfo")),
      storeGet st info_json_path ≠ none ∧
      storeGet st info_json_path ≠ some (lit "sessioninfo") :=
  manifest_write_direct (lit "sessioninfo") (by decide)
